import Mathlib

/-!
Verification of the keyword-matching engine of `search_engine_api.py`
(`preprocess_query`, `extract_keywords_from_image`, `filter_images_by_query`).

The engine's pure logic is embedded shallowly.  External collaborators that
are not part of this repository are modelled explicitly:

* OCR (`extract_text_from_image`, pytesseract): the text it returns for an
  image is passed in as data (an `ImageFile` carries the text the extractor
  produced for it; `""` on extraction failure, exactly as the source's
  `except` branch returns `""`).
* RAKE phrase ranking (`rake_nltk`): a parameter `rake : String → List String`
  standing for `Rake(...).get_ranked_phrases()` on the given text.
* nltk `word_tokenize` and the nltk English stopword corpus: modelled below
  (`word_tokenize`, `english_stop_words`).
* Python string primitives `str.lower`, `str.strip`, `in`, `str.endswith`:
  modelled as `pyLower`, `pyStrip`, `pyIn`, `pyEndsWith` (ASCII range).
-/

/-- Models Python `str.isspace` characters stripped by `str.strip()`:
space, tab, newline, vertical tab, form feed, carriage return. -/
def pyIsSpace (c : Char) : Bool :=
  c = ' ' || c = '\t' || c = '\n' || c = '\x0b' || c = '\x0c' || c = '\r'

/-- Models Python `str.strip()`: remove leading and trailing whitespace. -/
def pyStrip (s : String) : String :=
  String.mk (((s.toList.dropWhile pyIsSpace).reverse.dropWhile pyIsSpace).reverse)

/-- ASCII uppercase-to-lowercase mapping table. -/
def asciiLowerTable : List (Char × Char) :=
  [('A', 'a'), ('B', 'b'), ('C', 'c'), ('D', 'd'), ('E', 'e'), ('F', 'f'),
   ('G', 'g'), ('H', 'h'), ('I', 'i'), ('J', 'j'), ('K', 'k'), ('L', 'l'),
   ('M', 'm'), ('N', 'n'), ('O', 'o'), ('P', 'p'), ('Q', 'q'), ('R', 'r'),
   ('S', 's'), ('T', 't'), ('U', 'u'), ('V', 'v'), ('W', 'w'), ('X', 'x'),
   ('Y', 'y'), ('Z', 'z')]

/-- Models Python `str.lower` on a single character (ASCII range; the
corpus filenames, queries and OCR output handled by the source are ASCII). -/
def pyToLower (c : Char) : Char :=
  match asciiLowerTable.find? (fun p => p.1 == c) with
  | some p => p.2
  | none => c

/-- Models Python `str.lower`. -/
def pyLower (s : String) : String :=
  String.mk (s.toList.map pyToLower)

/-- Models Python substring containment `needle in haystack`. -/
def pyIn (needle haystack : String) : Bool :=
  (List.range (haystack.toList.length + 1)).any
    (fun i => needle.toList.isPrefixOf (haystack.toList.drop i))

/-- Models Python `s.endswith(suffix)`. -/
def pyEndsWith (s suffix : String) : Bool :=
  suffix.toList.isSuffixOf s.toList

/-- The nltk English stopword corpus loaded by the source into
`english_stop_words = set(stopwords.words('english'))`. -/
def english_stop_words : List String :=
  ["i", "me", "my", "myself", "we", "our", "ours", "ourselves", "you",
   "you\x27re", "you\x27ve", "you\x27ll", "you\x27d", "your", "yours",
   "yourself", "yourselves", "he", "him", "his", "himself", "she",
   "she\x27s", "her", "hers", "herself", "it", "it\x27s", "its", "itself",
   "they", "them", "their", "theirs", "themselves", "what", "which", "who",
   "whom", "this", "that", "that\x27ll", "these", "those", "am", "is",
   "are", "was", "were", "be", "been", "being", "have", "has", "had",
   "having", "do", "does", "did", "doing", "a", "an", "the", "and", "but",
   "if", "or", "because", "as", "until", "while", "of", "at", "by", "for",
   "with", "about", "against", "between", "into", "through", "during",
   "before", "after", "above", "below", "to", "from", "up", "down", "in",
   "out", "on", "off", "over", "under", "again", "further", "then", "once",
   "here", "there", "when", "where", "why", "how", "all", "any", "both",
   "each", "few", "more", "most", "other", "some", "such", "no", "nor",
   "not", "only", "own", "same", "so", "than", "too", "very", "s", "t",
   "can", "will", "just", "don", "don\x27t", "should", "should\x27ve",
   "now", "d", "ll", "m", "o", "re", "ve", "y", "ain", "aren",
   "aren\x27t", "couldn", "couldn\x27t", "didn", "didn\x27t", "doesn",
   "doesn\x27t", "hadn", "hadn\x27t", "hasn", "hasn\x27t", "haven",
   "haven\x27t", "isn", "isn\x27t", "ma", "mightn", "mightn\x27t",
   "mustn", "mustn\x27t", "needn", "needn\x27t", "shan", "shan\x27t",
   "shouldn", "shouldn\x27t", "wasn", "wasn\x27t", "weren", "weren\x27t",
   "won", "won\x27t", "wouldn", "wouldn\x27t"]

/-- A word character for tokenization purposes. -/
def isWordChar (c : Char) : Bool := c.isAlphanum

/-- Modelled from the spec: the core of nltk `word_tokenize` (an external
collaborator, not in src/), which per the spec "tokenizes on word
boundaries".  Collects maximal runs of word characters; `cur` accumulates
the current run in reverse. -/
def tokenizeAux : List Char → List Char → List (List Char)
  | [], cur => if cur.isEmpty then [] else [cur.reverse]
  | c :: cs, cur =>
    if isWordChar c then
      tokenizeAux cs (c :: cur)
    else if cur.isEmpty then
      tokenizeAux cs []
    else
      cur.reverse :: tokenizeAux cs []

/-- Modelled from the spec: nltk `word_tokenize` — splits a string into its
word tokens at word boundaries. -/
def word_tokenize (s : String) : List String :=
  (tokenizeAux s.toList []).map String.mk

/-- Embeds `preprocess_query`: tokenize the lower-cased query and drop
stopwords.  The source returns the surviving tokens as a Python list
(comprehension), in tokenization order. -/
def preprocess_query (query : String) : List String :=
  (word_tokenize (pyLower query)).filter
    (fun word => !(english_stop_words.contains word))

/-- Embeds `extract_keywords_from_image`.  `text` is what
`extract_text_from_image` returned for the image (`""` when OCR failed);
`rake` models the external rake_nltk ranking
(`Rake(stopwords=...).get_ranked_phrases()`).  The source guards with
`if text.strip():` and returns `[]` otherwise. -/
def extract_keywords_from_image (rake : String → List String)
    (text : String) : List String :=
  if pyStrip text ≠ "" then rake text else []

/-- The per-image value stored in the result dict of
`filter_images_by_query`: `{"image_path": ..., "keywords": ...}`. -/
structure ImageEntry where
  image_path : String
  keywords : List String
deriving DecidableEq, Repr

/-- One file of the image directory listing: its filename as produced by
`os.listdir` and the text `extract_text_from_image` yields for it. -/
structure ImageFile where
  name : String
  text : String
deriving DecidableEq, Repr

/-- The match test of `filter_images_by_query`, line 72 of the source:
`any(core_keyword in keyword.lower() for core_keyword in core_keywords
for keyword in keywords)`. -/
def matchesAny (core_keywords keywords : List String) : Bool :=
  core_keywords.any (fun core_keyword =>
    keywords.any (fun keyword => pyIn core_keyword (pyLower keyword)))

/-- The extension filter of `filter_images_by_query`, line 67:
`image_file.lower().endswith((".png", ".jpg", ".jpeg"))`. -/
def isImageFile (name : String) : Bool :=
  pyEndsWith (pyLower name) ".png" || pyEndsWith (pyLower name) ".jpg" ||
    pyEndsWith (pyLower name) ".jpeg"

/-- Embeds `filter_images_by_query`.  `image_dir` is `none` when
`os.path.exists(image_dir)` is false (the source then returns an error
dict), otherwise the directory listing.  The result dict is an association
list in insertion order (`os.listdir` yields distinct filenames, so keys
are unique). -/
def filter_images_by_query (rake : String → List String)
    (image_dir : Option (List ImageFile)) (query : String) :
    Except String (List (String × ImageEntry)) :=
  match image_dir with
  | none => Except.error "Image directory not found"
  | some files =>
    Except.ok (files.filterMap (fun image_file =>
      if isImageFile image_file.name then
        if matchesAny (preprocess_query query)
            (extract_keywords_from_image rake image_file.text) then
          some (image_file.name,
                ImageEntry.mk ("/images/" ++ image_file.name)
                  (extract_keywords_from_image rake image_file.text))
        else none
      else none))

/-- The entries of a successful result (the error case carries no map). -/
def okEntries : Except String (List (String × ImageEntry)) →
    List (String × ImageEntry)
  | Except.ok l => l
  | Except.error _ => []

/-! ### Helper lemmas -/

theorem pyToLower_snd_fixed : ∀ p ∈ asciiLowerTable, pyToLower p.2 = p.2 := by
  decide

theorem pyToLower_idem (c : Char) :
    pyToLower (pyToLower c) = pyToLower c := by
  cases hfind : asciiLowerTable.find? (fun p => p.1 == c) with
  | none =>
    have h1 : pyToLower c = c := by unfold pyToLower; rw [hfind]
    rw [h1]
    exact h1
  | some p =>
    have hmem : p ∈ asciiLowerTable := List.mem_of_find?_eq_some hfind
    have h1 : pyToLower c = p.2 := by unfold pyToLower; rw [hfind]
    rw [h1]
    exact pyToLower_snd_fixed p hmem

theorem pyLower_fixed_chars (s : String) (c : Char)
    (hc : c ∈ (pyLower s).toList) : pyToLower c = c := by
  have hmap : (pyLower s).toList = s.toList.map pyToLower := rfl
  rw [hmap] at hc
  obtain ⟨d, _, rfl⟩ := List.mem_map.mp hc
  exact pyToLower_idem d

theorem tokenizeAux_chars : ∀ (l cur t : List Char),
    t ∈ tokenizeAux l cur → ∀ c ∈ t, c ∈ l ∨ c ∈ cur := by
  intro l
  induction l with
  | nil =>
    intro cur t ht c hc
    unfold tokenizeAux at ht
    by_cases hcur : cur.isEmpty
    · simp [hcur] at ht
    · simp [hcur] at ht
      subst ht
      exact Or.inr (List.mem_reverse.mp hc)
  | cons a as ih =>
    intro cur t ht c hc
    unfold tokenizeAux at ht
    by_cases hw : isWordChar a
    · simp only [hw, if_true] at ht
      rcases ih (a :: cur) t ht c hc with h | h
      · exact Or.inl (List.mem_cons_of_mem a h)
      · rcases List.mem_cons.mp h with rfl | h
        · exact Or.inl (List.mem_cons_self c as)
        · exact Or.inr h
    · simp only [hw] at ht
      by_cases hcur : cur.isEmpty
      · simp [hcur] at ht
        rcases ih [] t ht c hc with h | h
        · exact Or.inl (List.mem_cons_of_mem a h)
        · cases h
      · simp [hcur] at ht
        rcases ht with rfl | ht
        · exact Or.inr (List.mem_reverse.mp hc)
        · rcases ih [] t ht c hc with h | h
          · exact Or.inl (List.mem_cons_of_mem a h)
          · cases h

theorem word_tokenize_chars (s t : String) (ht : t ∈ word_tokenize s) :
    ∀ c ∈ t.toList, c ∈ s.toList := by
  unfold word_tokenize at ht
  obtain ⟨cs, hcs, rfl⟩ := List.mem_map.mp ht
  intro c hc
  have hcs' : c ∈ cs := hc
  rcases tokenizeAux_chars s.toList [] cs hcs c hcs' with h | h
  · exact h
  · cases h

theorem string_mk_toList (t : String) : String.mk t.toList = t := rfl

theorem filter_images_some_eq (rake : String → List String)
    (files : List ImageFile) (query : String) :
    filter_images_by_query rake (some files) query =
      Except.ok (files.filterMap (fun image_file =>
        if isImageFile image_file.name then
          if matchesAny (preprocess_query query)
              (extract_keywords_from_image rake image_file.text) then
            some (image_file.name,
                  ImageEntry.mk ("/images/" ++ image_file.name)
                    (extract_keywords_from_image rake image_file.text))
          else none
        else none)) := rfl

theorem okEntries_ok (l : List (String × ImageEntry)) :
    okEntries (Except.ok l) = l := rfl

theorem matchesAny_nil (keywords : List String) :
    matchesAny [] keywords = false := rfl

theorem matchesAny_no_keywords (core_keywords : List String) :
    matchesAny core_keywords [] = false := by
  unfold matchesAny
  simp

theorem mem_filter_images (rake : String → List String)
    (files : List ImageFile) (query : String) (p : String × ImageEntry) :
    p ∈ okEntries (filter_images_by_query rake (some files) query) ↔
      ∃ f ∈ files, isImageFile f.name = true ∧
        matchesAny (preprocess_query query)
          (extract_keywords_from_image rake f.text) = true ∧
        p = (f.name, ImageEntry.mk ("/images/" ++ f.name)
              (extract_keywords_from_image rake f.text)) := by
  rw [filter_images_some_eq, okEntries_ok, List.mem_filterMap]
  constructor
  · rintro ⟨f, hf, hsome⟩
    by_cases h1 : isImageFile f.name = true
    · by_cases h2 : matchesAny (preprocess_query query)
          (extract_keywords_from_image rake f.text) = true
      · simp only [h1, h2, if_true] at hsome
        exact ⟨f, hf, h1, h2, (Option.some_inj.mp hsome).symm⟩
      · simp [h1, h2] at hsome
    · simp [h1] at hsome
  · rintro ⟨f, hf, h1, h2, rfl⟩
    exact ⟨f, hf, by simp [h1, h2]⟩

theorem filter_images_of_no_tokens (rake : String → List String)
    (files : List ImageFile) (query : String)
    (h : preprocess_query query = []) :
    filter_images_by_query rake (some files) query = Except.ok [] := by
  rw [filter_images_some_eq]
  congr 1
  apply List.filterMap_eq_nil_iff.mpr
  intro f _
  rw [h, matchesAny_nil]
  simp

/-! ### Claim theorems -/

/-- C1: a document identifier appears in the match map returned by
`filter_images_by_query` if and only if at least one query token produced
by `preprocess_query` is a case-insensitive substring of at least one of
that document's extracted keyword phrases.  The corpus is the directory
listing of documents (per the spec, documents are the image files; the
hypothesis states every listed file is one). -/
theorem filter_images_mem_iff (rake : String → List String)
    (files : List ImageFile) (query name : String)
    (himg : ∀ f ∈ files, isImageFile f.name = true) :
    (∃ e, (name, e) ∈
        okEntries (filter_images_by_query rake (some files) query)) ↔
      ∃ f ∈ files, f.name = name ∧
        ∃ tok ∈ preprocess_query query,
          ∃ phrase ∈ extract_keywords_from_image rake f.text,
            pyIn tok (pyLower phrase) = true := by
  constructor
  · rintro ⟨e, he⟩
    obtain ⟨f, hf, _, hmatch, heq⟩ := (mem_filter_images rake files query _).mp he
    have hname : f.name = name := ((Prod.mk.injEq _ _ _ _).mp heq).1.symm
    unfold matchesAny at hmatch
    obtain ⟨tok, htok, h2⟩ := List.any_eq_true.mp hmatch
    obtain ⟨phrase, hphrase, h3⟩ := List.any_eq_true.mp h2
    exact ⟨f, hf, hname, tok, htok, phrase, hphrase, h3⟩
  · rintro ⟨f, hf, rfl, tok, htok, phrase, hphrase, hin⟩
    refine ⟨ImageEntry.mk ("/images/" ++ f.name)
      (extract_keywords_from_image rake f.text), ?_⟩
    apply (mem_filter_images rake files query _).mpr
    refine ⟨f, hf, himg f hf, ?_, rfl⟩
    unfold matchesAny
    exact List.any_eq_true.mpr
      ⟨tok, htok, List.any_eq_true.mpr ⟨phrase, hphrase, hin⟩⟩

/-- C1 witness: the query token `"cat"` against the phrase list
`["category theory"]` yields a match, so `"a.png"` appears in the map. -/
theorem filter_images_mem_iff_witness :
    ∃ e, ("a.png", e) ∈ okEntries (filter_images_by_query
        (fun _ => ["category theory"])
        (some [ImageFile.mk "a.png" "category theory"]) "cat") :=
  (filter_images_mem_iff (fun _ => ["category theory"])
      [ImageFile.mk "a.png" "category theory"] "cat" "a.png"
      (by decide)).mpr
    ⟨ImageFile.mk "a.png" "category theory", by decide, rfl, "cat",
     by decide, "category theory", by decide, by decide⟩

/-- C2 counterexample: the claim says every document of the corpus has an
entry in the returned mapping; but the source only inserts matched
documents.  Corpus `{"a.png": "dog walking"}` with query `"cat"` yields an
empty map, so `"a.png"` has no entry. -/
theorem filter_images_not_full_map :
    filter_images_by_query (fun _ => ["dog walking"])
        (some [ImageFile.mk "a.png" "dog walking"]) "cat" = Except.ok [] ∧
    ¬ ∃ e, ("a.png", e) ∈ okEntries (filter_images_by_query
        (fun _ => ["dog walking"])
        (some [ImageFile.mk "a.png" "dog walking"]) "cat") := by
  refine ⟨rfl, ?_⟩
  rintro ⟨e, he⟩
  have h : okEntries (filter_images_by_query (fun _ => ["dog walking"])
      (some [ImageFile.mk "a.png" "dog walking"]) "cat") =
      ([] : List (String × ImageEntry)) := rfl
  rw [h] at he
  exact List.not_mem_nil _ he

/-- C2 (amended): `filter_images_by_query` returns the map of matched
documents only.  The operation never fails on a corpus: the result is a
successful map; a document with empty extracted text is still iterated,
contributes an empty keyword list and never matches; and every returned
entry comes from a matched document. -/
theorem filter_images_matched_only (rake : String → List String)
    (files : List ImageFile) (query : String) :
    (∃ L, filter_images_by_query rake (some files) query = Except.ok L) ∧
    (∀ f ∈ files, pyStrip f.text = "" →
      extract_keywords_from_image rake f.text = [] ∧
      matchesAny (preprocess_query query)
        (extract_keywords_from_image rake f.text) = false) ∧
    (∀ p ∈ okEntries (filter_images_by_query rake (some files) query),
      ∃ f ∈ files, f.name = p.1 ∧
        matchesAny (preprocess_query query)
          (extract_keywords_from_image rake f.text) = true) := by
  refine ⟨⟨_, filter_images_some_eq rake files query⟩, ?_, ?_⟩
  · intro f _ hstrip
    have hkw : extract_keywords_from_image rake f.text = [] := by
      unfold extract_keywords_from_image
      simp [hstrip]
    exact ⟨hkw, by rw [hkw, matchesAny_no_keywords]⟩
  · intro p hp
    obtain ⟨f, hf, _, hmatch, rfl⟩ := (mem_filter_images rake files query p).mp hp
    exact ⟨f, hf, rfl, hmatch⟩

/-- C2 witness: a failed-OCR document (empty text) contributes an empty
keyword list and does not match. -/
theorem filter_images_matched_only_witness :
    extract_keywords_from_image (fun t => [t]) "" = [] ∧
    matchesAny (preprocess_query "cat")
      (extract_keywords_from_image (fun t => [t]) "") = false :=
  (filter_images_matched_only (fun t => [t]) [ImageFile.mk "b.png" ""]
      "cat").2.1 (ImageFile.mk "b.png" "") (List.mem_singleton.mpr rfl) rfl

/-- C3: a query all of whose tokens are stopwords (in particular the empty
or whitespace-only query, which has no tokens at all) normalizes to the
empty token list, and `filter_images_by_query` then returns an empty match
map for every corpus. -/
theorem stopword_query_matches_nothing (query : String)
    (h : ∀ t ∈ word_tokenize (pyLower query),
      english_stop_words.contains t = true) :
    preprocess_query query = [] ∧
    ∀ (rake : String → List String) (files : List ImageFile),
      filter_images_by_query rake (some files) query = Except.ok [] := by
  have hempty : preprocess_query query = [] := by
    unfold preprocess_query
    apply List.filter_eq_nil_iff.mpr
    intro a ha
    rw [h a ha]
    simp
  exact ⟨hempty, fun rake files =>
    filter_images_of_no_tokens rake files query hempty⟩

/-- C3 witness: the all-stopword query `"is the"` and the whitespace-only
query `"   "` yield no tokens and no matches. -/
theorem stopword_query_matches_nothing_witness :
    (preprocess_query "is the" = [] ∧
      filter_images_by_query (fun t => [t])
        (some [ImageFile.mk "a.png" "hello"]) "is the" = Except.ok []) ∧
    preprocess_query "   " = [] :=
  ⟨⟨(stopword_query_matches_nothing "is the" (by decide)).1,
    (stopword_query_matches_nothing "is the" (by decide)).2
      (fun t => [t]) [ImageFile.mk "a.png" "hello"]⟩,
   (stopword_query_matches_nothing "   " (by decide)).1⟩

/-- C4 counterexample: the claim says `preprocess_query` returns a set with
no duplicate tokens, but the source returns a Python list comprehension:
`preprocess_query("cat cat")` is `["cat", "cat"]`, which has duplicates. -/
theorem preprocess_query_duplicates :
    preprocess_query "cat cat" = ["cat", "cat"] ∧
    ¬ (preprocess_query "cat cat").Nodup := by
  exact ⟨by decide, by decide⟩

/-- C4 (amended): `preprocess_query` returns the surviving tokens as a
list in tokenization order, preserving multiplicity — duplicates do not
collapse: a non-stopword token occurs in the result exactly as often as in
the tokenized lower-cased query, and a stopword never occurs. -/
theorem preprocess_query_count (query t : String) :
    (preprocess_query query).count t =
      if english_stop_words.contains t then 0
      else (word_tokenize (pyLower query)).count t := by
  unfold preprocess_query
  cases h : english_stop_words.contains t with
  | true =>
    simp only [h, if_true]
    apply List.count_eq_zero.mpr
    intro hmem
    have h2 : (!english_stop_words.contains t) = true :=
      (List.mem_filter.mp hmem).2
    rw [h] at h2
    exact absurd h2 (by decide)
  | false =>
    rw [if_neg Bool.false_ne_true]
    refine List.count_filter ?_
    simp only [Bool.not_eq_true']
    exact h

/-- C5: every token produced by `preprocess_query` is lower-cased (it is a
fixed point of `pyLower`) and is not a member of the stopword set. -/
theorem preprocess_query_tokens_clean (query t : String)
    (ht : t ∈ preprocess_query query) :
    pyLower t = t ∧ english_stop_words.contains t = false := by
  unfold preprocess_query at ht
  have hmem := List.mem_filter.mp ht
  constructor
  · have hchars : ∀ c ∈ t.toList, pyToLower c = c := fun c hc =>
      pyLower_fixed_chars query c
        (word_tokenize_chars (pyLower query) t hmem.1 c hc)
    show String.mk (t.toList.map pyToLower) = t
    have hmap : t.toList.map pyToLower = t.toList := by
      rw [List.map_congr_left hchars]
      exact List.map_id' t.toList
    rw [hmap]
    exact string_mk_toList t
  · have h2 := hmem.2
    simpa using h2

/-- C5 witness: `"The CAT"` normalizes to the single clean token `"cat"`. -/
theorem preprocess_query_tokens_clean_witness :
    pyLower "cat" = "cat" ∧ english_stop_words.contains "cat" = false :=
  preprocess_query_tokens_clean "The CAT" "cat" (by decide)

/-- C6: for a document whose extracted text is empty or whitespace-only,
`extract_keywords_from_image` returns the empty sequence (the source's
`if text.strip():` guard short-circuits before invoking the ranker). -/
theorem extract_keywords_empty_text (rake : String → List String)
    (text : String) (h : pyStrip text = "") :
    extract_keywords_from_image rake text = [] := by
  unfold extract_keywords_from_image
  simp [h]

/-- C6 witness: the empty text and a whitespace-only text both yield the
empty keyword sequence. -/
theorem extract_keywords_empty_text_witness :
    pyStrip "" = "" ∧
    extract_keywords_from_image (fun t => [t]) "" = [] ∧
    pyStrip " \t\n " = "" ∧
    extract_keywords_from_image (fun t => [t]) " \t\n " = [] :=
  ⟨rfl, extract_keywords_empty_text (fun t => [t]) "" rfl, rfl,
   extract_keywords_empty_text (fun t => [t]) " \t\n " rfl⟩

/-- C7: the matcher operations are total functions of their inputs in this
embedding (no exception paths: even the missing-directory case of the
source returns an error value, not a raise), and degenerate inputs degrade
to empty results: the empty query yields no tokens, whitespace-only text
yields no keywords, the empty corpus yields an empty map, and the empty
query yields an empty map on every corpus. -/
theorem matcher_total_degrades (rake : String → List String) :
    preprocess_query "" = [] ∧
    (∀ text, pyStrip text = "" →
      extract_keywords_from_image rake text = []) ∧
    (∀ query, filter_images_by_query rake (some []) query =
      Except.ok []) ∧
    (∀ files, filter_images_by_query rake (some files) "" =
      Except.ok []) := by
  refine ⟨rfl, ?_, ?_, ?_⟩
  · intro text htext
    unfold extract_keywords_from_image
    simp [htext]
  · intro query
    rw [filter_images_some_eq]
    rfl
  · intro files
    exact filter_images_of_no_tokens rake files "" rfl

/-- C7 witness: the degradations evaluated at concrete degenerate inputs. -/
theorem matcher_total_degrades_witness :
    preprocess_query "" = [] ∧
    extract_keywords_from_image (fun t => [t]) "  " = [] ∧
    filter_images_by_query (fun t => [t]) (some []) "anything" =
      Except.ok [] ∧
    filter_images_by_query (fun t => [t])
      (some [ImageFile.mk "a.png" "hello"]) "" = Except.ok [] :=
  ⟨(matcher_total_degrades (fun t => [t])).1,
   (matcher_total_degrades (fun t => [t])).2.1 "  " rfl,
   (matcher_total_degrades (fun t => [t])).2.2.1 "anything",
   (matcher_total_degrades (fun t => [t])).2.2.2
     [ImageFile.mk "a.png" "hello"]⟩

/-- C8: `extract_keywords_from_image` is deterministic: two invocations on
identical extracted text return identical ordered keyword sequences.  The
source constructs a fresh `Rake(stopwords=english_stop_words)` per call —
a fixed, input-independent collaborator, modelled by the function `rake` —
and has no other source of nondeterminism. -/
theorem extract_keywords_deterministic (rake : String → List String)
    (text₁ text₂ : String) (h : text₁ = text₂) :
    extract_keywords_from_image rake text₁ =
      extract_keywords_from_image rake text₂ := by
  rw [h]

/-- C8 witness: two invocations on the same text agree. -/
theorem extract_keywords_deterministic_witness :
    extract_keywords_from_image (fun t => [t]) "machine learning" =
      extract_keywords_from_image (fun t => [t]) "machine learning" :=
  extract_keywords_deterministic (fun t => [t])
    "machine learning" "machine learning" rfl

/-- C9: every key of the match map is a filename whose lower-cased form
ends with ".png", ".jpg" or ".jpeg"; a file with any other extension never
appears, whatever its OCR text. -/
theorem filter_images_keys_are_images (rake : String → List String)
    (files : List ImageFile) (query : String) (p : String × ImageEntry)
    (hp : p ∈ okEntries (filter_images_by_query rake (some files) query)) :
    pyEndsWith (pyLower p.1) ".png" = true ∨
    pyEndsWith (pyLower p.1) ".jpg" = true ∨
    pyEndsWith (pyLower p.1) ".jpeg" = true := by
  obtain ⟨f, _, himg, _, rfl⟩ := (mem_filter_images rake files query p).mp hp
  unfold isImageFile at himg
  have h3 := Bool.or_eq_true_iff.mp himg
  rcases h3 with h3 | h3
  · rcases Bool.or_eq_true_iff.mp h3 with h4 | h4
    · exact Or.inl h4
    · exact Or.inr (Or.inl h4)
  · exact Or.inr (Or.inr h3)

/-- C9 witness: the upper-case-named file `"Cat.JPG"` appears as a key and
its lower-cased name ends with ".jpg". -/
theorem filter_images_keys_are_images_witness :
    pyEndsWith (pyLower "Cat.JPG") ".png" = true ∨
    pyEndsWith (pyLower "Cat.JPG") ".jpg" = true ∨
    pyEndsWith (pyLower "Cat.JPG") ".jpeg" = true :=
  filter_images_keys_are_images (fun _ => ["cat picture"])
    [ImageFile.mk "Cat.JPG" "cat picture"] "cat"
    ("Cat.JPG", ImageEntry.mk "/images/Cat.JPG" ["cat picture"]) (by decide)

/-- C10: every entry of the match map has `image_path` equal to
`"/images/"` concatenated with its key, and `keywords` equal to exactly
the keyword sequence extracted from that file's text. -/
theorem filter_images_entry_shape (rake : String → List String)
    (files : List ImageFile) (query : String) (p : String × ImageEntry)
    (hp : p ∈ okEntries (filter_images_by_query rake (some files) query)) :
    p.2.image_path = "/images/" ++ p.1 ∧
    ∃ f ∈ files, f.name = p.1 ∧
      p.2.keywords = extract_keywords_from_image rake f.text := by
  obtain ⟨f, hf, _, _, rfl⟩ := (mem_filter_images rake files query p).mp hp
  exact ⟨rfl, f, hf, rfl, rfl⟩

/-- C10 witness: the matched entry for `"dog.png"` carries the URL path
`"/images/dog.png"` and exactly the extracted keywords. -/
theorem filter_images_entry_shape_witness :
    (ImageEntry.mk "/images/dog.png" ["dog park"]).image_path =
      "/images/" ++ "dog.png" ∧
    ∃ f ∈ [ImageFile.mk "dog.png" "dog park"], f.name = "dog.png" ∧
      (ImageEntry.mk "/images/dog.png" ["dog park"]).keywords =
        extract_keywords_from_image (fun _ => ["dog park"]) f.text :=
  filter_images_entry_shape (fun _ => ["dog park"])
    [ImageFile.mk "dog.png" "dog park"] "dog"
    ("dog.png", ImageEntry.mk "/images/dog.png" ["dog park"]) (by decide)
